import Mathlib

/-!
# Kaolin routing format: a verification development

This file gives a shallow embedding, in Lean 4, of the core of the Kaolin
PCB-routing toolchain (`krfTools.py`, `eagleToKRF.py`, `convertPCB.py`,
`writeHexFile.py`) and proves properties of it.

Modelling conventions, used throughout:

* Machine integers are modelled as `Nat`/`Int`.  The Python sources use
  arbitrary-precision ints, so no wrapping is involved; bit operations on
  constants (`x & 0xFF0000`, `x >> 16`, `x << 9`) are written in their exact
  arithmetic form (`/ 2^k`, `% 2^k`, `* 2^k`), with the original expression
  recorded in a comment next to each definition.
* Board coordinates live on the 0.01-inch grid.  The Python sources store
  positions as floats in inches and convert with `int(pos*100)` (encode) and
  `round(v/100.0, 2)` (decode); the embedding works directly with the integer
  number of hundredths of an inch, which is the quantity those two conversions
  move between.  (The float representation itself is not modelled.)
* Python string-keyed classifications (`'endpoint'`, `'pad'`, ...) become the
  closed enumerations `Routing`, `Connection`, `Orientation`.
* Fallible code paths (Python `IndexError` / `KeyError` / `NameError`, and
  `while True:` loops) are modelled with `Option`/sum types and explicit fuel.
-/

namespace Kaolin

/-! ## Data model: node descriptors (krfTools.py nodeList entries)

A Python nodeList entry is the dict
`{'node': line, 'routing': r, 'connection': c, 'orientation': o,
  'xPosition': x, 'yPosition': y}`. -/

/-- The four routing roles of a node (`'endpoint' | 'midpoint' | 'tee' | 'isolated'`). -/
inductive Routing where
  | endpoint
  | midpoint
  | tee
  | isolated
deriving DecidableEq, Repr

/-- The four connection kinds (`'none' | 'pad' | 'smd' | 'hole'`). -/
inductive Connection where
  | none
  | pad
  | smd
  | hole
deriving DecidableEq, Repr

/-- The four connection orientations (`'vertical' | 'horizontal' | 'compressed' | 'none'`). -/
inductive Orientation where
  | vertical
  | horizontal
  | compressed
  | none
deriving DecidableEq, Repr

/-- One node descriptor of a Kaolin nodeList.  `xPosition`/`yPosition` are in
hundredths of an inch (the Python floats times 100, see the module comment). -/
structure KNode where
  node : Nat
  routing : Routing
  connection : Connection
  orientation : Orientation
  xPosition : Nat
  yPosition : Nat
deriving DecidableEq, Repr

instance : Inhabited KNode :=
  ⟨⟨0, .endpoint, .none, .vertical, 0, 0⟩⟩

/-! ## Binary packer (krfTools.py, `krf.nodeListToByteList` / `krf.byteListToNodeList`) -/

/-- Routing contribution to the 24-bit encoded value
(`{'endpoint': 0x000000, 'midpoint': 0x400000, 'tee': 0x800000, 'isolated': 0xC00000}`). -/
def routingEnc : Routing → Nat
  | .endpoint => 0x000000
  | .midpoint => 0x400000
  | .tee => 0x800000
  | .isolated => 0xC00000

/-- Connection contribution
(`{'none': 0x000000, 'pad': 0x100000, 'smd': 0x200000, 'hole': 0x300000}`). -/
def connectionEnc : Connection → Nat
  | .none => 0x000000
  | .pad => 0x100000
  | .smd => 0x200000
  | .hole => 0x300000

/-- Orientation contribution
(`{'vertical': 0x000000, 'horizontal': 0x040000, 'compressed': 0x080000, 'none': 0x0C0000}`). -/
def orientationEnc : Orientation → Nat
  | .vertical => 0x000000
  | .horizontal => 0x040000
  | .compressed => 0x080000
  | Orientation.none => 0x0C0000

/-- The 24-bit encoded value of one node:
routing + connection + orientation + `(int(x*100)) << 9` + `int(y*100)`.
`x <<< 9` is written `x * 512`. -/
def nodeEncodedValue (n : KNode) : Nat :=
  routingEnc n.routing + connectionEnc n.connection + orientationEnc n.orientation
    + n.xPosition * 512 + n.yPosition

/-- The three bytes of one node, big endian:
`[(v & 0xFF0000) >> 16, (v & 0x00FF00) >> 8, v & 0x0000FF]`,
written as `v / 2^16 % 2^8`, `v / 2^8 % 2^8`, `v % 2^8`. -/
def nodeBytes (n : KNode) : List Nat :=
  [nodeEncodedValue n / 65536 % 256, nodeEncodedValue n / 256 % 256, nodeEncodedValue n % 256]

/-- `krf.nodeListToByteList`: concatenates the 3-byte encodings of all nodes. -/
def nodeListToByteList (nodeList : List KNode) : List Nat :=
  match nodeList with
  | [] => []
  | n :: rest => nodeBytes n ++ nodeListToByteList rest

/-- `krf.memoryListToByteList`: splits a flat byte list into triplets,
`[memoryList[3i : 3i+3] for i in range(len(memoryList) // 3)]`. -/
def memoryListToByteList (memoryList : List Nat) : List (List Nat) :=
  (List.range (memoryList.length / 3)).map fun i => (memoryList.drop (3 * i)).take 3

/-- Decode of the 2-bit routing code `{0: 'endpoint', 1: 'midpoint', 2: 'tee', 3: 'isolated'}`.
The argument is always masked to two bits, so the catch-all case is code 3. -/
def codeToRouting : Nat → Routing
  | 0 => .endpoint
  | 1 => .midpoint
  | 2 => .tee
  | _ => .isolated

/-- Decode of the 2-bit connection code `{0: 'none', 1: 'pad', 2: 'smd', 3: 'hole'}`. -/
def codeToConnection : Nat → Connection
  | 0 => .none
  | 1 => .pad
  | 2 => .smd
  | _ => .hole

/-- Decode of the 2-bit orientation code
`{0: 'vertical', 1: 'horizontal', 2: 'compressed', 3: 'none'}`. -/
def codeToOrientation : Nat → Orientation
  | 0 => .vertical
  | 1 => .horizontal
  | 2 => .compressed
  | _ => Orientation.none

/-- Decode of one 3-byte triplet (`krf.byteListToNodeList` loop body) at 1-based
line number `idx + 1`.  The bit extractions
`(t0>>6)&3`, `(t0>>4)&3`, `(t0>>2)&3`, `((t0&3)<<7)+(t1>>1)`, `((t1&1)<<8)+t2`
are written in `/`,`%`,`*` form.  The Python code indexes `triplet[0..2]`;
missing entries are read as 0 here (the codec only ever produces full triplets). -/
def tripletToNode (idx : Nat) (triplet : List Nat) : KNode :=
  let t0 := triplet.getD 0 0
  let t1 := triplet.getD 1 0
  let t2 := triplet.getD 2 0
  { node := idx + 1
    routing := codeToRouting (t0 / 64 % 4)
    connection := codeToConnection (t0 / 16 % 4)
    orientation := codeToOrientation (t0 / 4 % 4)
    xPosition := t0 % 4 * 128 + t1 / 2
    yPosition := t1 % 2 * 256 + t2 }

/-- `krf.byteListToNodeList` with the running `enumerate` index made explicit. -/
def byteListToNodeListFrom (idx : Nat) : List (List Nat) → List KNode
  | [] => []
  | t :: rest => tripletToNode idx t :: byteListToNodeListFrom (idx + 1) rest

/-- `krf.byteListToNodeList`: converts a list of byte triplets into a nodeList,
numbering nodes from 1. -/
def byteListToNodeList (byteList : List (List Nat)) : List KNode :=
  byteListToNodeListFrom 0 byteList

/-- `krf.generateTerminatingNode`: the single end-of-data descriptor. -/
def generateTerminatingNode (nodeList : List KNode) : List KNode :=
  [{ node := nodeList.length + 1, routing := .isolated, connection := Connection.none,
     orientation := Orientation.none, xPosition := 0, yPosition := 0 }]

/-- The byte payload assembled by `krf.writeHexFile` (line
`byteList = krf.nodeListToByteList(self.nodeList + self.generateTerminatingNode())`). -/
def writeHexPayload (nodeList : List KNode) : List Nat :=
  nodeListToByteList (nodeList ++ generateTerminatingNode nodeList)

/-! ## Packer round-trip lemmas -/

/-- The 2-bit code of a routing role (the factor in front of `2^22`). -/
def routingCode : Routing → Nat
  | .endpoint => 0
  | .midpoint => 1
  | .tee => 2
  | .isolated => 3

/-- The 2-bit code of a connection kind. -/
def connectionCode : Connection → Nat
  | .none => 0
  | .pad => 1
  | .smd => 2
  | .hole => 3

/-- The 2-bit code of an orientation. -/
def orientationCode : Orientation → Nat
  | .vertical => 0
  | .horizontal => 1
  | .compressed => 2
  | Orientation.none => 3

theorem routingEnc_eq (r : Routing) : routingEnc r = routingCode r * 4194304 := by
  cases r <;> rfl

theorem connectionEnc_eq (c : Connection) : connectionEnc c = connectionCode c * 1048576 := by
  cases c <;> rfl

theorem orientationEnc_eq (o : Orientation) : orientationEnc o = orientationCode o * 262144 := by
  cases o <;> rfl

theorem routingCode_lt (r : Routing) : routingCode r < 4 := by
  cases r <;> simp [routingCode]

theorem connectionCode_lt (c : Connection) : connectionCode c < 4 := by
  cases c <;> simp [connectionCode]

theorem orientationCode_lt (o : Orientation) : orientationCode o < 4 := by
  cases o <;> simp [orientationCode]

theorem codeToRouting_routingCode (r : Routing) : codeToRouting (routingCode r) = r := by
  cases r <;> rfl

theorem codeToConnection_connectionCode (c : Connection) :
    codeToConnection (connectionCode c) = c := by
  cases c <;> rfl

theorem codeToOrientation_orientationCode (o : Orientation) :
    codeToOrientation (orientationCode o) = o := by
  cases o <;> rfl

/-- Field extraction from the three big-endian bytes of a well-formed 24-bit value. -/
theorem packFields (R C O x y : Nat) (hR : R < 4) (hC : C < 4) (hO : O < 4)
    (hx : x < 512) (hy : y < 512) :
    (R * 4194304 + C * 1048576 + O * 262144 + x * 512 + y) / 65536 % 256 / 64 % 4 = R
    ∧ (R * 4194304 + C * 1048576 + O * 262144 + x * 512 + y) / 65536 % 256 / 16 % 4 = C
    ∧ (R * 4194304 + C * 1048576 + O * 262144 + x * 512 + y) / 65536 % 256 / 4 % 4 = O
    ∧ (R * 4194304 + C * 1048576 + O * 262144 + x * 512 + y) / 65536 % 256 % 4 * 128
        + (R * 4194304 + C * 1048576 + O * 262144 + x * 512 + y) / 256 % 256 / 2 = x
    ∧ (R * 4194304 + C * 1048576 + O * 262144 + x * 512 + y) / 256 % 256 % 2 * 256
        + (R * 4194304 + C * 1048576 + O * 262144 + x * 512 + y) % 256 = y := by
  omega

/-- Unpacking the three bytes of a single in-range descriptor restores every
field; the 1-based line number becomes `idx + 1`. -/
theorem tripletToNode_nodeBytes (idx : Nat) (n : KNode)
    (hx : n.xPosition ≤ 511) (hy : n.yPosition ≤ 511) :
    tripletToNode idx (nodeBytes n) = { n with node := idx + 1 } := by
  obtain ⟨nd, r, c, o, x, y⟩ := n
  simp only [KNode.xPosition] at hx
  simp only [KNode.yPosition] at hy
  obtain ⟨h1, h2, h3, h4, h5⟩ :=
    packFields (routingCode r) (connectionCode c) (orientationCode o) x y
      (routingCode_lt r) (connectionCode_lt c) (orientationCode_lt o)
      (by omega) (by omega)
  simp only [tripletToNode, nodeBytes, nodeEncodedValue, routingEnc_eq, connectionEnc_eq,
    orientationEnc_eq, List.getD_cons_zero, List.getD_cons_succ]
  rw [h1, h2, h3, h4, h5, codeToRouting_routingCode, codeToConnection_connectionCode,
    codeToOrientation_orientationCode]

/-- Renumbering a nodeList with consecutive 1-based line numbers starting at
`idx + 1`; this is what a pack/unpack round trip does to the `node` field. -/
def renumberFrom (idx : Nat) : List KNode → List KNode
  | [] => []
  | n :: rest => { n with node := idx + 1 } :: renumberFrom (idx + 1) rest

theorem nodeBytes_length (n : KNode) : (nodeBytes n).length = 3 := rfl

theorem nodeListToByteList_append (xs ys : List KNode) :
    nodeListToByteList (xs ++ ys) = nodeListToByteList xs ++ nodeListToByteList ys := by
  induction xs with
  | nil => rfl
  | cons a as ih => simp [nodeListToByteList, ih]

/-- Regrouping a flat byte list that starts with one full triplet. -/
theorem memoryListToByteList_cons3 (a l : List Nat) (ha : a.length = 3) :
    memoryListToByteList (a ++ l) = a :: memoryListToByteList l := by
  simp only [memoryListToByteList]
  have hlen : (a ++ l).length / 3 = l.length / 3 + 1 := by
    simp [List.length_append, ha]
  rw [hlen, List.range_succ_eq_map]
  simp only [List.map_cons, List.map_map, Nat.mul_zero, List.drop_zero]
  congr 1
  · rw [← ha, List.take_left]
  · apply List.map_congr_left
    intro i _
    simp only [Function.comp_apply]
    have h : 3 * (Nat.succ i) = a.length + 3 * i := by omega
    rw [h, List.drop_append]

/-- Round trip at the nodeList level: packing to flat bytes, regrouping into
triplets, and unpacking restores every descriptor, renumbering the `node`
field consecutively from `idx + 1`. -/
theorem roundTripFrom (idx : Nat) (nodeList : List KNode)
    (h : ∀ n ∈ nodeList, n.xPosition ≤ 511 ∧ n.yPosition ≤ 511) :
    byteListToNodeListFrom idx (memoryListToByteList (nodeListToByteList nodeList))
      = renumberFrom idx nodeList := by
  induction nodeList generalizing idx with
  | nil => rfl
  | cons n rest ih =>
    have hn := h n (List.mem_cons_self n rest)
    rw [show nodeListToByteList (n :: rest) = nodeBytes n ++ nodeListToByteList rest from rfl,
      memoryListToByteList_cons3 _ _ (nodeBytes_length n)]
    simp only [byteListToNodeListFrom, renumberFrom]
    rw [tripletToNode_nodeBytes idx n hn.1 hn.2,
      ih (idx + 1) fun m hm => h m (List.mem_cons_of_mem n hm)]

/-! ## Binary64-faithful position conversion
(`int(node['xPosition']*100)` in krfTools.py `krf.nodeListToByteList`)

The Python encoder multiplies the stored float position by 100 and truncates
with `int(...)`.  A grid position of `v` hundredths of an inch is held as the
IEEE binary64 double nearest `v/100`, which for many `v` (e.g. `v = 510`,
i.e. 5.1") lies just below `v/100`; the correctly rounded product by 100 then
lands just below `v`, and `int` truncates it to `v - 1`.  The definitions
below model this exactly with dyadic rationals: a finite double is an integer
times a power of two, and each binary64 operation rounds its exact rational
result to 53 significand bits, to nearest, ties to even. -/

/-- Round-to-nearest, ties-to-even integer division: the integer nearest
`num / den`, ties going to the even integer.  This is the rounding step of
every IEEE-754 binary operation once operands are scaled to integers. -/
def rneDiv (num den : Nat) : Nat :=
  let q := num / den
  let r := num % den
  if 2 * r < den then q
  else if den < 2 * r then q + 1
  else if q % 2 = 0 then q else q + 1

/-- Smallest `k ≤ 63` with `bound ≤ x * 2 ^ k`: the scaling shift that brings
the quotient `x / 100` up to full 53-bit significand precision.  All uses in
range stay far below the 63 cap. -/
def normShift (x bound : Nat) : Nat :=
  ((List.range 64).find? fun k => decide (bound ≤ x * 2 ^ k)).getD 0

/-- Smallest `j ≤ 63` with `x < 2 ^ 53 * 2 ^ j`: by how many bits an exact
product overshoots the 53-bit significand. -/
def shrinkShift (x : Nat) : Nat :=
  ((List.range 64).find? fun j => decide (x < 2 ^ 53 * 2 ^ j)).getD 0

/-- Exact value of the Python expression `int(x * 100)` where `x` is the
binary64 double nearest `v / 100` (the float stored for a descriptor on the
0.01-inch grid at `v` hundredths).  Each step is exact dyadic arithmetic:

* `k := normShift v (2^52 * 100)` scales `v` so `v * 2^k / 100` carries 53
  bits; the double nearest `v/100` is `M / 2^k` with
  `M := rneDiv (v * 2^k) 100` (correctly rounded division).
* the exact product `(M / 2^k) * 100 = (M * 100) / 2^k` can overshoot 53
  bits by `j := shrinkShift (M * 100)` bits; the rounded product double is
  `P / 2^(k-j)` with `P := rneDiv (M * 100) (2^j)`.
* `int` truncates toward zero, which on the nonnegative dyadic `P / 2^(k-j)`
  is natural division.

On the 9-bit grid the result is `v` where the conversion is exact (e.g.
`v = 511, 512`) and `v - 1` at the 37 grid values where the product double
falls just below `v` (`v = 29, 57, 58, ..., 510`). -/
def pyIntTimes100 (v : Nat) : Nat :=
  if v = 0 then 0
  else
    let k := normShift v (2 ^ 52 * 100)
    let M := rneDiv (v * 2 ^ k) 100
    let j := shrinkShift (M * 100)
    let P := rneDiv (M * 100) (2 ^ j)
    P / 2 ^ (k - j)

/-- A descriptor with both positions passed through the binary64 `int(x*100)`
conversion: what the Python encoder actually commits to the bit fields. -/
def pyMapNode (n : KNode) : KNode :=
  { n with xPosition := pyIntTimes100 n.xPosition, yPosition := pyIntTimes100 n.yPosition }

/-- `nodeEncodedValue` with the positions converted as Python's floats are. -/
def nodeEncodedValuePy (n : KNode) : Nat :=
  routingEnc n.routing + connectionEnc n.connection + orientationEnc n.orientation
    + pyIntTimes100 n.xPosition * 512 + pyIntTimes100 n.yPosition

/-- The three big-endian bytes of one node under the binary64-faithful
encoded value. -/
def nodeBytesPy (n : KNode) : List Nat :=
  [nodeEncodedValuePy n / 65536 % 256, nodeEncodedValuePy n / 256 % 256,
    nodeEncodedValuePy n % 256]

/-- `krf.nodeListToByteList` with the binary64-faithful position conversion. -/
def nodeListToByteListPy (nodeList : List KNode) : List Nat :=
  match nodeList with
  | [] => []
  | n :: rest => nodeBytesPy n ++ nodeListToByteListPy rest

/-- What a pack/unpack round trip through the binary64-faithful encoder does
to a nodeList: consecutive renumbering from `idx + 1`, and each position
mapped through `int(x*100)`. -/
def pyRenumberFrom (idx : Nat) : List KNode → List KNode
  | [] => []
  | n :: rest => { pyMapNode n with node := idx + 1 } :: pyRenumberFrom (idx + 1) rest

theorem nodeBytesPy_eq (n : KNode) : nodeBytesPy n = nodeBytes (pyMapNode n) := rfl

theorem nodeListToByteListPy_eq (nodeList : List KNode) :
    nodeListToByteListPy nodeList = nodeListToByteList (nodeList.map pyMapNode) := by
  induction nodeList with
  | nil => rfl
  | cons n rest ih => simp [nodeListToByteListPy, nodeListToByteList, ih, nodeBytesPy_eq]

theorem pyRenumberFrom_eq (idx : Nat) (nodeList : List KNode) :
    pyRenumberFrom idx nodeList = renumberFrom idx (nodeList.map pyMapNode) := by
  induction nodeList generalizing idx with
  | nil => rfl
  | cons n rest ih => simp [pyRenumberFrom, renumberFrom, ih]

/-- The valid descriptor with X = Y = 5.1" (grid value 510 hundredths). -/
def gridNode510 : KNode :=
  { node := 1, routing := .endpoint, connection := .pad, orientation := .vertical,
    xPosition := 510, yPosition := 510 }

/--
C1, counterexample.  The claimed round trip fails on the valid descriptor
X = Y = 5.1" (grid value 510, inside the 9-bit range): the binary64 double
nearest 5.1 lies just below 5.1, the correctly rounded product by 100 lies
just below 510, and Python's `int` truncates it to 509 — so packing the
descriptor (`krf.nodeListToByteList`) and unpacking it again
(`krf.memoryListToByteList` + `krf.byteListToNodeList`) returns
X = Y = 5.09", not the original descriptor.
-/
theorem c1_counterexample :
    pyIntTimes100 510 = 509
    ∧ byteListToNodeList (memoryListToByteList (nodeListToByteListPy [gridNode510]))
        = [{ gridNode510 with xPosition := 509, yPosition := 509 }]
    ∧ byteListToNodeList (memoryListToByteList (nodeListToByteListPy [gridNode510]))
        ≠ [gridNode510] :=
  ⟨by decide, by decide, by decide⟩

/--
C1, amended.  For every nodeList of valid descriptors whose converted
positions fit the 9-bit fields, packing (`krf.nodeListToByteList`, with the
binary64-faithful `int(x*100)` conversion) and unpacking
(`krf.memoryListToByteList` followed by `krf.byteListToNodeList`) restores
every routing role, connection kind and orientation exactly, renumbers the
`node` line numbers consecutively 1, 2, 3, ..., and returns each coordinate
mapped through `int(x*100)`: the coordinate is restored exactly where that
conversion is exact at its grid value (as at X = Y = 5.11", the witness),
and comes back one hundredth low at the grid values where it truncates
(5.1", 0.29", 0.57", ...).
-/
theorem c1_float_roundtrip (nodeList : List KNode)
    (h : ∀ n ∈ nodeList,
      pyIntTimes100 n.xPosition ≤ 511 ∧ pyIntTimes100 n.yPosition ≤ 511) :
    byteListToNodeList (memoryListToByteList (nodeListToByteListPy nodeList))
      = pyRenumberFrom 0 nodeList := by
  rw [nodeListToByteListPy_eq, pyRenumberFrom_eq]
  refine roundTripFrom 0 (nodeList.map pyMapNode) ?_
  intro m hm
  obtain ⟨n, hn, rfl⟩ := List.mem_map.mp hm
  exact h n hn

/-! ## Intel-hex record encoder (krfTools.py `krf.hexString` / `krf.encodeDataRecord`;
identical code in writeHexFile.py) -/

/-- One uppercase hex digit.  Python builds lowercase via `hex()` and applies
`.upper()` at the end; the embedding produces uppercase directly. -/
def hexDigit (n : Nat) : Char :=
  if n < 10 then Char.ofNat (48 + n) else Char.ofNat (55 + n)

/-- Minimal big-endian hex digit list of `v` (what `str(hex(v))[2:]` yields).
Structural recursion on a fuel that starts at `v` itself; `v / 16 < v`
whenever `16 ≤ v`, so the fuel never runs out. -/
def hexDigitsGo : Nat → Nat → List Char
  | 0, v => [hexDigit (v % 16)]
  | fuel + 1, v => if v < 16 then [hexDigit v] else hexDigitsGo fuel (v / 16) ++ [hexDigit (v % 16)]

/-- Minimal hex representation of a number, uppercase, at least one digit. -/
def hexDigits (v : Nat) : List Char :=
  hexDigitsGo v v

/-- `krf.hexString`: fixed-length zero-padded uppercase hex string of `value`.
The Python loop `for i in range(numBytes*2 - len(encoding))` prepends that many
zeros (none when the range is empty), exactly `Nat` subtraction. -/
def hexString (value numBytes : Nat) : List Char :=
  List.replicate (numBytes * 2 - (hexDigits value).length) '0' ++ hexDigits value

/-- The checksum `krf.encodeDataRecord` computes over the data bytes:
`checksum = sum(data); checksum &= 0xFF; checksum = ((checksum ^ 0xFF) + 1) & 0xFF`
(standard Intel-hex two's complement).  The source computes this value and then
never writes it. -/
def recordChecksum (data : List Nat) : Nat :=
  ((data.foldl (· + ·) 0 % 256) ^^^ 255 + 1) % 256

/-- `krf.encodeDataRecord`: start char, length byte, 2-byte address, record
type `00`, the data bytes in hex — and then, in the checksum slot, the source
appends `krf.hexString(dataByte, 1)` where `dataByte` is the leftover loop
variable, i.e. the **last data byte**, not the computed checksum.  For empty
`data` the Python code raises `NameError` (`dataByte` was never bound), hence
the `Option`. -/
def encodeDataRecord (data : List Nat) (address : Nat) : Option (List Char) :=
  let head := [':'] ++ hexString data.length 1 ++ hexString address 2 ++ ['0', '0']
  let body := data.foldl (fun acc b => acc ++ hexString b 1) []
  match data.getLast? with
  | Option.none => Option.none
  | some dataByte => some (head ++ body ++ hexString dataByte 1)

theorem foldl_hexString_append (data : List Nat) (acc : List Char) :
    data.foldl (fun acc b => acc ++ hexString b 1) acc
      = acc ++ (data.map (fun b => hexString b 1)).flatten := by
  induction data generalizing acc with
  | nil => simp
  | cons b rest ih => simp [ih]

/--
C9.  For every nonempty data record, the per-record trailer of
`krf.encodeDataRecord` computes the Intel-hex checksum of the data bytes
(`recordChecksum`) but writes the hex value of the **last data byte** into the
checksum slot instead: the produced record is exactly
start ++ length ++ address ++ type ++ data-hex ++ hex(last data byte).
The second conjunct shows at a concrete record (`[0x01, 0x02]`, whose correct
checksum is 0xFD) that the written slot really differs from the computed
checksum.
-/
theorem c9_checksum_slot (data : List Nat) (address : Nat) (h : data ≠ []) :
    encodeDataRecord data address
      = some ([':'] ++ hexString data.length 1 ++ hexString address 2 ++ ['0', '0']
          ++ (data.map (fun b => hexString b 1)).flatten ++ hexString (data.getLast h) 1)
    ∧ encodeDataRecord [1, 2] 0
      ≠ some ([':'] ++ hexString 2 1 ++ hexString 0 2 ++ ['0', '0']
          ++ (([1, 2] : List Nat).map (fun b => hexString b 1)).flatten
          ++ hexString (recordChecksum [1, 2]) 1) := by
  constructor
  · simp only [encodeDataRecord, List.getLast?_eq_getLast data h,
      foldl_hexString_append, List.nil_append]
  · decide

/-- Witness for C9 at the two-byte record `[0x01, 0x02]` @ address 0: the
trailer is `"02"` (the last data byte), not the checksum `"FD"`. -/
theorem c9_checksum_slot_witness :
    ([1, 2] : List Nat) ≠ []
    ∧ encodeDataRecord [1, 2] 0
      = some [':', '0', '2', '0', '0', '0', '0', '0', '0', '0', '1', '0', '2', '0', '2'] :=
  ⟨by decide, by
    rw [(c9_checksum_slot [1, 2] 0 (by decide)).1]
    decide⟩

/-! ## C5: behaviour of the packer on out-of-range coordinates

`krf.nodeListToByteList` contains no range check at all: an X or Y value
outside `[0, 511]` is shifted and added like any other, so its high bits
overflow into the neighbouring bit fields of the 24-bit word. -/

/-- The orientation whose 2-bit code is one higher; this is what an overflow
of bit 9 of the X field does to the orientation field. -/
def bumpOrientation : Orientation → Orientation
  | .vertical => .horizontal
  | .horizontal => .compressed
  | .compressed => Orientation.none
  | Orientation.none => .vertical

theorem orientationCode_lt3 (o : Orientation) (h : o ≠ Orientation.none) :
    orientationCode o < 3 := by
  cases o <;> simp_all [orientationCode]

theorem codeToOrientation_bump (o : Orientation) (h : o ≠ Orientation.none) :
    codeToOrientation (orientationCode o + 1) = bumpOrientation o := by
  cases o <;> first | rfl | exact absurd rfl h

/-- A descriptor with X = 5.12" (512 hundredths, one past the 9-bit range). -/
def oversizeNode : KNode :=
  { node := 1, routing := .endpoint, connection := Connection.none,
    orientation := .vertical, xPosition := 512, yPosition := 0 }

/--
Counterexample to C5.  The claim says a descriptor with X = 5.12" is rejected
with a fatal encode error rather than packed.  In the source
`krf.nodeListToByteList` has no error path at all: the oversize descriptor is
packed into the 3 bytes `[0x04, 0x00, 0x00]` (the overflowing X bit lands in
the orientation field), and unpacking gives back a different descriptor
(X = 0, orientation flipped from vertical to horizontal) instead of an error.
-/
theorem c5_counterexample :
    nodeListToByteList [oversizeNode] = [4, 0, 0]
    ∧ byteListToNodeList (memoryListToByteList (nodeListToByteList [oversizeNode]))
        ≠ [oversizeNode]
    ∧ byteListToNodeList (memoryListToByteList (nodeListToByteList [oversizeNode]))
        = [{ oversizeNode with xPosition := 0, orientation := .horizontal }] := by
  decide

/--
C5 as amended.  The encoder performs no range check: a descriptor whose X
coordinate is 512 (= 5.12") is packed anyway, and the overflowing bit lands in
the adjacent orientation field, so unpacking returns a corrupted descriptor
with X = 0 and the orientation code incremented by one (for any orientation
other than `none`, which would carry further into the connection field).
-/
theorem c5_amended_overflow (n : KNode) (hx : n.xPosition = 512)
    (hy : n.yPosition ≤ 511) (ho : n.orientation ≠ Orientation.none) :
    byteListToNodeList (memoryListToByteList (nodeListToByteList [n]))
      = [{ n with node := 1, xPosition := 0, orientation := bumpOrientation n.orientation }] := by
  obtain ⟨nd, r, c, o, x, y⟩ := n
  simp only [KNode.xPosition] at hx
  simp only [KNode.yPosition] at hy
  simp only [KNode.orientation] at ho
  subst hx
  obtain ⟨h1, h2, h3, h4, h5⟩ :=
    packFields (routingCode r) (connectionCode c) (orientationCode o + 1) 0 y
      (routingCode_lt r) (connectionCode_lt c)
      (by have := orientationCode_lt3 o ho; omega) (by omega) (by omega)
  have hv : routingCode r * 4194304 + connectionCode c * 1048576
      + orientationCode o * 262144 + 512 * 512 + y
      = routingCode r * 4194304 + connectionCode c * 1048576
        + (orientationCode o + 1) * 262144 + 0 * 512 + y := by ring
  show byteListToNodeListFrom 0 (memoryListToByteList (nodeBytes _ ++ nodeListToByteList []))
      = _
  rw [memoryListToByteList_cons3 _ _ (nodeBytes_length _)]
  simp only [byteListToNodeListFrom, memoryListToByteList, nodeListToByteList,
    List.length_nil, Nat.zero_div, List.range_zero, List.map_nil]
  simp only [tripletToNode, nodeBytes, nodeEncodedValue, routingEnc_eq, connectionEnc_eq,
    orientationEnc_eq, List.getD_cons_zero, List.getD_cons_succ]
  rw [hv, h1, h2, h3, h4, h5, codeToRouting_routingCode, codeToConnection_connectionCode,
    codeToOrientation_bump o ho]

/-- Witness for `c5_amended_overflow` at a concrete oversize descriptor. -/
theorem c5_amended_overflow_witness :
    (oversizeNode.xPosition = 512 ∧ oversizeNode.yPosition ≤ 511
      ∧ oversizeNode.orientation ≠ Orientation.none)
    ∧ byteListToNodeList (memoryListToByteList (nodeListToByteList [oversizeNode]))
      = [{ oversizeNode with
            node := 1,
            xPosition := 0,
            orientation := bumpOrientation oversizeNode.orientation }] :=
  ⟨by decide, c5_amended_overflow oversizeNode (by decide) (by decide) (by decide)⟩

/-- The boundary descriptor with X = Y = 5.11" (511 hundredths of an inch). -/
def boundaryNode : KNode :=
  { node := 1, routing := .tee, connection := .pad, orientation := .compressed,
    xPosition := 511, yPosition := 511 }

/-- Witness for `c1_float_roundtrip` at the boundary descriptor
X = Y = 5.11" (grid value 511), where `int(x*100)` is exact, so the concrete
descriptor round-trips unchanged. -/
theorem c1_float_roundtrip_witness :
    (∀ n ∈ [boundaryNode],
      pyIntTimes100 n.xPosition ≤ 511 ∧ pyIntTimes100 n.yPosition ≤ 511)
    ∧ byteListToNodeList (memoryListToByteList (nodeListToByteListPy [boundaryNode]))
      = [boundaryNode] :=
  ⟨by decide, by
    rw [c1_float_roundtrip _ (by decide)]
    decide⟩

/-! ## Reverse traverser (krfTools.py, `krf.sim_*` and `krf.traverseNodeList`)

The decoder is a read head over the nodeList with the state below.  Positions
are `Int` because the Python code decrements `sim_currentPosition` freely and
Python list indexing accepts negative indices (wrapping from the end); `pyGet`
models Python indexing exactly. -/

/-- The traverser read-head state (`krf.sim_initializeParameters`). -/
structure TravState where
  pathStartPosition : Int
  currentPosition : Int
  terminalPosition : Int
  junctionRecord : Nat
  currentJunctionPosition : Nat
  direction : Nat
  passive : Nat
deriving DecidableEq, Repr

/-- Initial state: all indices 0, empty junction record, forward, active. -/
def sim_initState : TravState :=
  { pathStartPosition := 0, currentPosition := 0, terminalPosition := 0,
    junctionRecord := 0, currentJunctionPosition := 0, direction := 1, passive := 0 }

/-- `krf.sim_goForward`: step forward; the terminal position follows. -/
def sim_goForward (s : TravState) : TravState :=
  { s with currentPosition := s.currentPosition + 1,
           terminalPosition := s.currentPosition + 1,
           direction := 1 }

/-- `krf.sim_goReverse`: step backward. -/
def sim_goReverse (s : TravState) : TravState :=
  { s with currentPosition := s.currentPosition - 1, direction := 0 }

/-- `krf.sim_skipTerminal`: jump one past the furthest node reached and resume
forward motion with the junction cursor reset. -/
def sim_skipTerminal (s : TravState) : TravState :=
  { s with terminalPosition := s.terminalPosition + 1,
           currentPosition := s.terminalPosition + 1,
           direction := 1,
           currentJunctionPosition := 0 }

/-- `krf.sim_startPath`: begin a new path at the current position. -/
def sim_startPath (s : TravState) : TravState :=
  { s with pathStartPosition := s.currentPosition,
           junctionRecord := 0, currentJunctionPosition := 0, passive := 0 }

/-- `krf.sim_setPassive`. -/
def sim_setPassive (s : TravState) : TravState :=
  { s with passive := 1 }

/-- `krf.sim_setActive`. -/
def sim_setActive (s : TravState) : TravState :=
  { s with passive := 0 }

/-- `krf.sim_newJunction`: append a fresh 2-bit entry `01` at the low end
(`junctionRecord = (junctionRecord << 2) + 1`, written `* 4 + 1`). -/
def sim_newJunction (s : TravState) : TravState :=
  { s with junctionRecord := s.junctionRecord * 4 + 1, currentJunctionPosition := 0 }

/-- `krf.sim_visitJunction`: read the 2-bit entry at the junction cursor
(`(junctionRecord >> pos) & 0b11`, written `/ 2^pos % 4`) and step the state:
`01 ↦ 10` (returns 2), `10 ↦ 00` (returns 3; the source clears bit `pos+1` via
`junctionRecord &= ~(2 << pos)`, which in this branch — where that bit is known
to be set — is subtraction of `2 * 2^pos`), `00 ↦ 00` (returns 0).  For the
state `11`, which matches none of the three Python branches, nothing changes
and Python implicitly returns `None`. -/
def sim_visitJunction (s : TravState) : Option Nat × TravState :=
  let junctionState := s.junctionRecord / 2 ^ s.currentJunctionPosition % 4
  if junctionState = 1 then
    (some 2, { s with junctionRecord := s.junctionRecord + 2 ^ s.currentJunctionPosition,
                      currentJunctionPosition := s.currentJunctionPosition + 2 })
  else if junctionState = 2 then
    (some 3, { s with junctionRecord := s.junctionRecord - 2 * 2 ^ s.currentJunctionPosition,
                      currentJunctionPosition := s.currentJunctionPosition + 2 })
  else if junctionState = 0 then
    (some 0, { s with currentJunctionPosition := s.currentJunctionPosition + 2 })
  else
    (Option.none, s)

/-- Python list indexing `nodeList[i]`: nonnegative indices read from the
front (`None` past the end models `IndexError`), negative indices in
`[-len, -1]` wrap around from the end. -/
def pyGet (nodeList : List KNode) (i : Int) : Option KNode :=
  if 0 ≤ i then nodeList[i.toNat]?
  else if -(nodeList.length : Int) ≤ i then nodeList[nodeList.length - (-i).toNat]?
  else Option.none

/-- Full configuration of one `krf.traverseNodeList` run: read-head state plus
the accumulating `pathList` and `travelList` locals. -/
structure TravConfig where
  st : TravState
  pathList : List KNode
  travelList : List (List KNode)
deriving DecidableEq, Repr

/-- Outcome of running the traverser loop some number of iterations:
still running, returned normally, or crashed on an out-of-range read
(`IndexError`). -/
inductive TravOutcome where
  | running (c : TravConfig)
  | done (travelList : List (List KNode))
  | fail
deriving DecidableEq, Repr

/-- One iteration of the `while True:` loop of `krf.traverseNodeList`,
branch for branch.  Unhandled combinations (a non-path-start `isolated` node,
and an undefined junction-record state) change nothing except what was already
appended before the dispatch — exactly the Python fall-through. -/
def travStep (nodeList : List KNode) (c : TravConfig) : TravOutcome :=
  match pyGet nodeList c.st.currentPosition with
  | Option.none => .fail
  | some node =>
    if c.st.direction = 1 then
      -- GOING FORWARDS: the node is appended to the path unconditionally
      let pl := c.pathList ++ [node]
      if c.st.currentPosition = c.st.pathStartPosition then
        -- FIRST NODE IN PATH
        let s1 := sim_goForward c.st
        if node.routing = .isolated then
          .running ⟨sim_startPath s1, [], c.travelList ++ [pl]⟩
        else
          .running ⟨s1, pl, c.travelList⟩
      else
        -- IN PATH
        match node.routing with
        | .endpoint => .running ⟨sim_goReverse c.st, pl, c.travelList⟩
        | .midpoint => .running ⟨sim_goForward c.st, pl, c.travelList⟩
        | .tee => .running ⟨sim_goForward (sim_newJunction c.st), pl, c.travelList⟩
        | .isolated => .running ⟨c.st, pl, c.travelList⟩
    else
      -- GOING IN REVERSE
      if c.st.currentPosition = c.st.pathStartPosition then
        -- BACK AT THE START, DONE WORKING ON PATH
        let pl := c.pathList ++ [node]
        let s1 := sim_skipTerminal c.st
        if s1.currentPosition < (nodeList.length : Int) then
          .running ⟨sim_startPath s1, [], c.travelList ++ [pl]⟩
        else
          .done (c.travelList ++ [pl])
      else
        match node.routing with
        | .endpoint => .running ⟨sim_goReverse (sim_setPassive c.st), c.pathList, c.travelList⟩
        | .midpoint =>
          if c.st.passive ≠ 0 then
            .running ⟨sim_goReverse c.st, c.pathList, c.travelList⟩
          else
            .running ⟨sim_goReverse c.st, c.pathList ++ [node], c.travelList⟩
        | .tee =>
          match sim_visitJunction c.st with
          | (junctionState, s') =>
            if junctionState = some 2 then
              .running ⟨sim_skipTerminal (sim_setActive s'), c.pathList ++ [node], c.travelList⟩
            else if junctionState = some 3 then
              .running ⟨sim_goReverse (sim_setActive s'), c.pathList ++ [node], c.travelList⟩
            else if junctionState = some 0 then
              .running ⟨sim_setPassive (sim_goReverse s'), c.pathList, c.travelList⟩
            else
              -- undefined junction-record state: Python falls through every branch
              .running ⟨s', c.pathList, c.travelList⟩
        | .isolated => .running ⟨c.st, c.pathList, c.travelList⟩

/-- The initial loop configuration of `krf.traverseNodeList`. -/
def travInit : TravConfig :=
  ⟨sim_initState, [], []⟩

/-- `krf.traverseNodeList`, run for `fuel` loop iterations.  `done` carries the
returned travelList; `fail` is a Python `IndexError`; `running` means the loop
has not yet returned (the source loop can run forever on malformed input). -/
def traverseNodeList (nodeList : List KNode) : Nat → TravOutcome
  | 0 => .running travInit
  | fuel + 1 =>
    match traverseNodeList nodeList fuel with
    | .running c => travStep nodeList c
    | out => out

/-! ## Trace graph builder and forward serializer (eagleToKRF.py)

`signal.addWire` builds a list of `node` objects; object references become
indices into that list.  Positions are on the 0.01-inch grid (`Int` pairs, in
hundredths; the Python floats-in-inches only scale this).

Angles: the source sorts attachments by `math.atan2`-derived clockwise angles
in degrees.  The embedding uses the exact rational "diamond angle", which
agrees with the true angle at every multiple of 45° (all directions occurring
in the concrete graphs below are axis-aligned) and is cyclically
order-isomorphic to `atan2` everywhere, so sorting by it sorts exactly as the
source does whenever no two attachment directions coincide.

Rationals are represented as unreduced numerator/denominator pairs (`Frac`)
whose denominators are positive by construction; ordering and equality are the
usual cross-multiplication tests, which on positive denominators agree with
the rational numbers these pairs denote. -/

/-- An exact rational value `num / den`; every `Frac` built below has
`den > 0`. -/
structure Frac where
  num : Int
  den : Int
deriving DecidableEq, Repr

/-- The rational `k`. -/
def intFrac (k : Int) : Frac :=
  ⟨k, 1⟩

/-- Exact difference of two fractions. -/
def fracSub (a b : Frac) : Frac :=
  ⟨a.num * b.den - b.num * a.den, a.den * b.den⟩

/-- Exact sum of a fraction and an integer. -/
def fracAddInt (a : Frac) (k : Int) : Frac :=
  ⟨a.num + k * a.den, a.den⟩

/-- Exact product of a fraction and an integer. -/
def fracMulInt (a : Frac) (k : Int) : Frac :=
  ⟨a.num * k, a.den⟩

/-- `a < b` as rationals (cross multiplication; denominators positive). -/
def fracLt (a b : Frac) : Bool :=
  a.num * b.den < b.num * a.den

/-- `a = b` as rationals (cross multiplication; denominators positive). -/
def fracEq (a b : Frac) : Bool :=
  a.num * b.den == b.num * a.den

/-- Exact order-preserving angle (degrees in `[0, 360)`) of the vector `v`:
`v.2 / (|v.1| + |v.2|)`, reflected for negative x, scaled by 90 and
normalised.  Agrees with `math.degrees(math.atan2 v.2 v.1)` on every multiple
of 45° and is strictly increasing along the same cyclic order in between. -/
def diamondDeg (v : Int × Int) : Frac :=
  if v = (0, 0) then intFrac 0
  else
    let t : Frac := ⟨v.2, (v.1.natAbs : Int) + (v.2.natAbs : Int)⟩
    let raw := if 0 ≤ v.1 then fracMulInt t 90 else fracMulInt (fracSub (intFrac 2) t) 90
    if fracLt raw (intFrac 0) then fracAddInt raw 360 else raw

/-- `node.getAngle(entryNode, exitNode)`: clockwise angle in degrees between
the entry direction and the exit direction.  With no entry node the source
takes the phantom entry point `(x - 1, y)`, i.e. the entry vector `(1, 0)`.
The `while totalAngle < 0: totalAngle += 2*pi` loop runs at most once since
both absolute angles lie in `[0, 360)`. -/
def getAngle (thisPos : Int × Int) (entryPos : Option (Int × Int)) (exitPos : Int × Int) : Frac :=
  let entryAngle := match entryPos with
    | some e => diamondDeg (thisPos.1 - e.1, thisPos.2 - e.2)
    | Option.none => diamondDeg (1, 0)
  let exitAngle := diamondDeg (thisPos.1 - exitPos.1, thisPos.2 - exitPos.2)
  let totalAngle := fracSub exitAngle entryAngle
  if fracLt totalAngle (intFrac 0) then fracAddInt totalAngle 360 else totalAngle

/-- Insert into a sorted list, after any element with an equal key — the
insertion used by a stable sort. -/
def pyInsertSorted {α : Type} (key : α → Frac) (x : α) : List α → List α
  | [] => [x]
  | y :: rest => if fracLt (key x) (key y) then x :: y :: rest else y :: pyInsertSorted key x rest

/-- Model of Python's stable `list.sort(key=...)`: a stable sort by a rational
key.  Stability plus sortedness determines the output list uniquely, so any
stable sort (this insertion sort included) produces exactly Python's result. -/
def pySortByKey {α : Type} (key : α → Frac) (l : List α) : List α :=
  l.foldl (fun acc x => pyInsertSorted key x acc) []

/-- One node of a trace graph (`eagleToKRF.node`): board position, attached
node indices in insertion order, and the connection classification found in
the position-indexed connection table. -/
structure GNode where
  position : Int × Int
  attachments : List Nat
  connection : Connection
  orientation : Orientation
deriving DecidableEq, Repr

instance : Inhabited GNode :=
  ⟨⟨(0, 0), [], Connection.none, Orientation.none⟩⟩

/-- `node.findConnection`: look the position up in the connection table,
defaulting to no connection (`{"type": "none", "orientation": "none"}`). -/
def findConnection (tbl : List ((Int × Int) × Connection × Orientation)) (pos : Int × Int) :
    Connection × Orientation :=
  ((tbl.find? fun e => e.1 == pos).map Prod.snd).getD (Connection.none, Orientation.none)

/-- `node.__init__`: a fresh node at `pos` with no attachments yet. -/
def mkGNode (tbl : List ((Int × Int) × Connection × Orientation)) (pos : Int × Int) : GNode :=
  { position := pos, attachments := [],
    connection := (findConnection tbl pos).1, orientation := (findConnection tbl pos).2 }

/-- Append attachment `j` to node `i` (`node.addAttachment`, via the node-list
index playing the role of the Python object reference). -/
def addAttachmentAt (ns : List GNode) (i j : Nat) : List GNode :=
  match ns.get? i with
  | some nd => ns.set i { nd with attachments := nd.attachments ++ [j] }
  | Option.none => ns

/-- `signal.addWire`: look both wire endpoints up by position
(`doesNodeExist` — both lookups happen before anything is added), create
missing nodes at the end of the list, then record the mutual attachment. -/
def addWire (tbl : List ((Int × Int) × Connection × Orientation)) (ns : List GNode)
    (w : (Int × Int) × (Int × Int)) : List GNode :=
  let e1 := ns.findIdx? fun nd => nd.position == w.1
  let e2 := ns.findIdx? fun nd => nd.position == w.2
  let ns1 := match e1 with
    | Option.none => ns ++ [mkGNode tbl w.1]
    | some _ => ns
  let i1 := e1.getD ns.length
  let ns2 := match e2 with
    | Option.none => ns1 ++ [mkGNode tbl w.2]
    | some _ => ns1
  let i2 := e2.getD ns1.length
  addAttachmentAt (addAttachmentAt ns2 i1 i2) i2 i1

/-- `signal.__init__` (node-building part): fold `addWire` over the signal's
wire list, starting from an empty node list. -/
def buildSignal (tbl : List ((Int × Int) × Connection × Orientation))
    (wires : List ((Int × Int) × (Int × Int))) : List GNode :=
  wires.foldl (addWire tbl) []

/-- `node.getAttachments(entryNode)`: attachments paired with their clockwise
angles relative to the entry direction, angle 0 (the reciprocal of the entry)
mapped to 360 when an entry node is given, stably sorted by angle. -/
def getAttachments (g : List GNode) (i : Nat) (entry : Option Nat) : List (Nat × Frac) :=
  let nd := g.getD i default
  let entryPos := entry.map fun e => (g.getD e default).position
  let angles := nd.attachments.map fun j => getAngle nd.position entryPos (g.getD j default).position
  let angles := match entry with
    | some _ => angles.map fun a => if fracEq a (intFrac 0) then intFrac 360 else a
    | Option.none => angles
  pySortByKey Prod.snd (nd.attachments.zip angles)

/-- `signal.getEndpoints`: indices of the degree-1 nodes, in node-list order. -/
def getEndpoints (g : List GNode) : List Nat :=
  (List.range g.length).filter fun i => (g.getD i default).attachments.length == 1

/-- `signal.getStartNode`: stable-sort the endpoints by their y coordinate and
take the last (an uppermost endpoint).  `None` models the `IndexError` of
`endpoints[-1]` when there is no endpoint at all. -/
def getStartNode (g : List GNode) : Option Nat :=
  (pySortByKey (fun i => intFrac (g.getD i default).position.2) (getEndpoints g)).getLast?

/-- The `while nextNode != startNode:` loop of `signal.serialize`.
`traversedNodes` is the insertion-ordered association list modelling the dict
`{node: remainingAttachments}`; `pop(0)` from an exhausted entry (or a fuel
run-out of the unbounded Python loop) yields `none`. -/
def serializeLoop (g : List GNode) (startNode : Nat) :
    Nat → List (Nat × List (Nat × Frac)) → List Nat → Nat → Nat → Option (List Nat)
  | 0, _, _, _, _ => Option.none
  | fuel + 1, trav, stream, lastNode, nextNode =>
    if nextNode = startNode then some stream
    else
      let firstVisit := (trav.find? fun e => e.1 == nextNode).isNone
      let stream1 := if firstVisit then stream ++ [nextNode] else stream
      let trav1 := if firstVisit
        then trav ++ [(nextNode, getAttachments g nextNode (some lastNode))]
        else trav
      match trav1.find? fun e => e.1 == nextNode with
      | Option.none => Option.none
      | some entry =>
        match entry.2 with
        | [] => Option.none
        | p :: rest =>
          serializeLoop g startNode fuel
            (trav1.map fun e => if e.1 == nextNode then (nextNode, rest) else e)
            stream1 nextNode p.1

/-- `signal.serialize`: start at the uppermost endpoint, walk the boundary of
the trace graph keeping visited territory to the right, and emit each node on
its first visit.  Returns the emitted node indices. -/
def serialize (g : List GNode) (fuel : Nat) : Option (List Nat) :=
  match getStartNode g with
  | Option.none => Option.none
  | some startNode =>
    match getAttachments g startNode Option.none with
    | [] => Option.none
    | first :: _ => serializeLoop g startNode fuel [] [startNode] startNode first.1

/-! ## From a serialized stream of graph nodes to KRF descriptors

`convertPCB.writeKRF` writes one line per stream node via `node.nodeString`
(routing letter from the attachment count), and `krf.loadFromFile` reads the
same data back into a nodeList; this composition is the conversion below. -/

/-- The routing role assigned by `node.nodeString`'s
`routingDict = {0: "I", 1: "E", 2: "M", 3: "T"}`, indexed by attachment count.
A count above 3 has no entry (`nodeString` fails, see `nodeString`); the
catch-all here is only ever applied to counts at most 3. -/
def degreeRouting : Nat → Routing
  | 0 => .isolated
  | 1 => .endpoint
  | 2 => .midpoint
  | 3 => .tee
  | _ => .isolated

/-- The serialized stream rendered as a KRF nodeList with 1-based line
numbers, starting at `idx + 1`. -/
def signalToKRFFrom (g : List GNode) (idx : Nat) : List Nat → List KNode
  | [] => []
  | j :: rest =>
    let nd := g.getD j default
    { node := idx + 1, routing := degreeRouting nd.attachments.length,
      connection := nd.connection, orientation := nd.orientation,
      xPosition := nd.position.1.toNat, yPosition := nd.position.2.toNat }
      :: signalToKRFFrom g (idx + 1) rest

/-- The serialized stream rendered as a KRF nodeList (lines numbered from 1). -/
def signalToKRF (g : List GNode) (stream : List Nat) : List KNode :=
  signalToKRFFrom g 0 stream

/-- The travelList returned by a traverser run, if it returned. -/
def travPaths : TravOutcome → Option (List (List KNode))
  | .done travelList => some travelList
  | _ => Option.none

/-! ## `node.nodeString` (eagleToKRF.py / convertPCB.py): the descriptor string -/

/-- `routingDict = {0: "I", 1: "E", 2: "M", 3: "T"}`, indexed by the
attachment count; counts above 3 have no entry. -/
def routingChar : Nat → Option Char
  | 0 => some 'I'
  | 1 => some 'E'
  | 2 => some 'M'
  | 3 => some 'T'
  | _ => Option.none

/-- `connectionDict = {"none": "N", "pad": "P", "smd": "S", "hole": "H"}`. -/
def connectionChar : Connection → Char
  | .none => 'N'
  | .pad => 'P'
  | .smd => 'S'
  | .hole => 'H'

/-- `orientationDict = {"vertical": "V", "horizontal": "Z", "compressed": "C", "none": "X"}`. -/
def orientationChar : Orientation → Char
  | .vertical => 'V'
  | .horizontal => 'Z'
  | .compressed => 'C'
  | Orientation.none => 'X'

/-- `node.nodeString`: the three-letter Kaolin descriptor of a node.  When the
attachment count is not in `routingDict` (degree above 3) the source prints
`ERROR: NODE AT <position> HAS TOO MANY (...) CONNECTIONS.` and returns
`None`; that failing branch, with the position it reports, is the `error`
case. -/
def nodeString (nd : GNode) : Except (Int × Int) (List Char) :=
  match routingChar nd.attachments.length with
  | some rc => .ok [rc, connectionChar nd.connection, orientationChar nd.orientation]
  | Option.none => .error nd.position

/-! ## Board-level stream assembly (eagleToKRF.py `board.__init__`) -/

/-- The serialized stream of one signal as graph nodes rather than indices. -/
def serializeNodes (g : List GNode) (fuel : Nat) : Option (List GNode) :=
  (serialize g fuel).map (List.map fun i => g.getD i default)

/-- `board.__init__` stream assembly:
`self.stream = []` then `self.stream += thisSignal.serialize()` for each
signal in order — plain concatenation, nothing inserted in between. -/
def boardStream (tbl : List ((Int × Int) × Connection × Orientation)) (fuel : Nat) :
    List (List ((Int × Int) × (Int × Int))) → Option (List GNode)
  | [] => some []
  | sig :: rest =>
    match serializeNodes (buildSignal tbl sig) fuel with
    | Option.none => Option.none
    | some l => (boardStream tbl fuel rest).map fun r => l ++ r

/-! ## Concrete trace graphs used by the claims -/

/-- Three wires forming a plus shape sharing the center point `(1.00, 1.00)`:
up to `(1.00, 2.00)`, right to `(2.00, 1.00)`, down to `(1.00, 0.00)`
(coordinates in hundredths of an inch). -/
def plusWires : List ((Int × Int) × (Int × Int)) :=
  [((100, 100), (100, 200)), ((100, 100), (200, 100)), ((100, 100), (100, 0))]

/-- The trace graph of the plus-shaped signal: node 0 is the degree-3 tee at
the center, nodes 1 (top), 2 (right), 3 (bottom) are endpoints. -/
def plusGraph : List GNode :=
  buildSignal [] plusWires

/-- The KRF descriptor sequence of the plus-shaped signal (uppermost endpoint,
tee, bottom endpoint, right endpoint). -/
def plusKRF : List KNode :=
  [{ node := 1, routing := .endpoint, connection := Connection.none,
     orientation := Orientation.none, xPosition := 100, yPosition := 200 },
   { node := 2, routing := .tee, connection := Connection.none,
     orientation := Orientation.none, xPosition := 100, yPosition := 100 },
   { node := 3, routing := .endpoint, connection := Connection.none,
     orientation := Orientation.none, xPosition := 100, yPosition := 0 },
   { node := 4, routing := .endpoint, connection := Connection.none,
     orientation := Orientation.none, xPosition := 200, yPosition := 100 }]

/-- The single closed boundary-walk path the traverser reconstructs from the
plus-shaped sequence: line numbers 1,2,3,2,4,2,1 — it passes the tee (line 2)
three times and traverses each of the three wires twice, once per side. -/
def plusPath : List KNode :=
  [plusKRF.getD 0 default, plusKRF.getD 1 default, plusKRF.getD 2 default,
   plusKRF.getD 1 default, plusKRF.getD 3 default, plusKRF.getD 1 default,
   plusKRF.getD 0 default]

/-- A single wire from `(0, 0)` up to `(0, 1.00)`. -/
def wireWires : List ((Int × Int) × (Int × Int)) :=
  [((0, 0), (0, 100))]

/-- The trace graph of the single-wire signal: two degree-1 endpoints. -/
def wireGraph : List GNode :=
  buildSignal [] wireWires

/-- The KRF descriptor sequence of the single wire (upper endpoint first). -/
def wireKRF : List KNode :=
  [{ node := 1, routing := .endpoint, connection := Connection.none,
     orientation := Orientation.none, xPosition := 0, yPosition := 100 },
   { node := 2, routing := .endpoint, connection := Connection.none,
     orientation := Orientation.none, xPosition := 0, yPosition := 0 }]

/-- The path the traverser reconstructs from the single-wire sequence:
down the wire and back to the start — three stops over two distinct nodes. -/
def wirePath : List KNode :=
  [wireKRF.getD 0 default, wireKRF.getD 1 default, wireKRF.getD 0 default]

/-- A signal whose wires form two disconnected segments (all degrees ≤ 1). -/
def discWires : List ((Int × Int) × (Int × Int)) :=
  [((0, 0), (0, 100)), ((500, 500), (500, 600))]

/-- The trace graph of the disconnected signal: four endpoints, two segments. -/
def discGraph : List GNode :=
  buildSignal [] discWires

/-- A signal with four wires meeting at `(0, 0)`: its center node gets
attachment count 4, beyond the representable degree 3. -/
def star4Wires : List ((Int × Int) × (Int × Int)) :=
  [((0, 0), (0, 100)), ((0, 0), (100, 0)), ((0, 0), (0, -100)), ((0, 0), (-100, 0))]

/-- The trace graph of the degree-4 star signal; `signal.addWire` builds it
without any check or complaint. -/
def star4Graph : List GNode :=
  buildSignal [] star4Wires

/-- A board with two independent single-wire signals. -/
def demoSignals : List (List ((Int × Int) × (Int × Int))) :=
  [[((0, 0), (0, 100))], [((50, 0), (50, 80))]]

/-!
## C2: the plus-shaped signal
-/

/--
Counterexample to C2.  Encoding the plus-shaped signal does produce a
length-4 sequence in which the tee appears exactly once — but decoding that
sequence does **not** yield three Reconstructed Paths: `krf.traverseNodeList`
closes a path only when the read head returns to the path's start node, so it
returns exactly **one** path (the full closed boundary walk, 7 stops), not 3.
-/
theorem c2_counterexample :
    serialize plusGraph 20 = some [1, 0, 3, 2]
    ∧ signalToKRF plusGraph [1, 0, 3, 2] = plusKRF
    ∧ plusKRF.countP (fun n => n.routing == Routing.tee) = 1
    ∧ (travPaths (traverseNodeList plusKRF 30)).map List.length = some 1
    ∧ (travPaths (traverseNodeList plusKRF 30)).map List.length ≠ some 3 := by
  decide

/--
C2 as amended.  Encoding the plus-shaped signal (three wires sharing a
degree-3 tee) produces the length-4 sequence endpoint–tee–endpoint–endpoint in
which the tee appears exactly once; decoding that sequence yields exactly
**one** Reconstructed Path of 7 stops — the closed boundary walk
1,2,3,2,4,2,1 — which touches the tee three times and covers each of the
three wires exactly twice (once per side), returning to the start endpoint.
-/
theorem c2_amended_boundary_walk :
    serialize plusGraph 20 = some [1, 0, 3, 2]
    ∧ signalToKRF plusGraph [1, 0, 3, 2] = plusKRF
    ∧ (plusKRF.map KNode.routing)
        = [.endpoint, .tee, .endpoint, .endpoint]
    ∧ traverseNodeList plusKRF 30 = .done [plusPath]
    ∧ plusPath.countP (fun n => n.routing == Routing.tee) = 3
    ∧ plusPath.length = 7 := by
  decide

/-!
## C3: the single-wire signal
-/

/--
Counterexample to C3.  The single wire encodes to a 2-node sequence and
decodes to exactly one path — but that path has **three** stops, not two:
when the read head returns to the path start, `krf.traverseNodeList` appends
the start node to the path again before closing it, so the path is
start–end–start.
-/
theorem c3_counterexample :
    serialize wireGraph 20 = some [1, 0]
    ∧ (signalToKRF wireGraph [1, 0]).length = 2
    ∧ travPaths (traverseNodeList (signalToKRF wireGraph [1, 0]) 20) = some [wirePath]
    ∧ wirePath.length ≠ 2 := by
  decide

/--
C3 as amended.  The single wire (two degree-1 endpoints, no tee) encodes to a
2-node sequence, and decoding that sequence produces exactly one path; the
path is the closed walk start–end–start with 3 stops, whose underlying
distinct nodes are exactly the 2 original ones (the start endpoint is
repeated when the path closes).
-/
theorem c3_amended_closed_walk :
    serialize wireGraph 20 = some [1, 0]
    ∧ signalToKRF wireGraph [1, 0] = wireKRF
    ∧ traverseNodeList wireKRF 20 = .done [wirePath]
    ∧ wirePath = [wireKRF.getD 0 default, wireKRF.getD 1 default, wireKRF.getD 0 default]
    ∧ wirePath.dedup.length = 2 := by
  decide

/-!
## C6: attachment counts above 3
-/

/--
Counterexample to C6.  The claim says a node with attachment count above 3 is
detected **at graph build time** and aborts that signal's conversion.  In the
source `signal.addWire` performs no degree check at all: building the
four-wire star signal completes normally and yields a five-node graph whose
center node carries four attachments.  Nothing aborts and nothing is
reported until the descriptor string is generated much later
(`node.nodeString`, see the amended theorem).
-/
theorem c6_counterexample :
    star4Graph.length = 5
    ∧ (star4Graph.getD 0 default).attachments = [1, 2, 3, 4]
    ∧ (star4Graph.getD 0 default).position = (0, 0) := by
  decide

theorem routingChar_none (k : Nat) (h : 3 < k) : routingChar k = Option.none := by
  match k, h with
  | n + 4, _ => rfl

/--
C6 as amended.  A node degree above 3 is **not** checked at build time —
`signal.addWire` records the fourth attachment without complaint (see the
counterexample) — and is detected only when the node's Kaolin descriptor
string is generated: for every node with more than 3 attachments,
`node.nodeString` produces no descriptor and reports the offending node's
position (the source prints `ERROR: NODE AT <position> ...` and returns
`None`, which then crashes the caller that concatenates the descriptor).
-/
theorem c6_amended_late_detection (nd : GNode) (h : 3 < nd.attachments.length) :
    nodeString nd = .error nd.position := by
  simp [nodeString, routingChar_none nd.attachments.length h]

/-- Witness for `c6_amended_late_detection` at the center of the star-4
signal. -/
theorem c6_amended_late_detection_witness :
    3 < (star4Graph.getD 0 default).attachments.length
    ∧ nodeString (star4Graph.getD 0 default) = .error ((star4Graph.getD 0 default).position) :=
  ⟨by decide, c6_amended_late_detection (star4Graph.getD 0 default) (by decide)⟩

/-!
## C7: single occurrence in the serialized stream
-/

/--
Counterexample to C7.  For the disconnected signal (two separate wire
segments, all degrees ≤ 1 ≤ 3), `signal.serialize` walks only the component
of the start node: the stream is `[3, 2]` and the two nodes of the other
segment (indices 0 and 1, real nodes of the built graph) appear **zero**
times — so not every physical node appears exactly once.
-/
theorem c7_counterexample :
    serialize discGraph 30 = some [3, 2]
    ∧ discGraph.length = 4
    ∧ (discGraph.getD 0 default).attachments.length = 1
    ∧ ((serialize discGraph 30).getD []).count 0 = 0 := by
  decide

/-- A key that `find?` does not see is not among the mapped keys. -/
theorem find_none_not_mem_keys {β : Type} (trav : List (Nat × β)) (k : Nat)
    (h : (trav.find? fun e => e.1 == k) = Option.none) : k ∉ trav.map Prod.fst := by
  intro hmem
  obtain ⟨e, he, hfst⟩ := List.mem_map.mp hmem
  have := List.find?_eq_none.mp h e he
  simp [hfst] at this

/-- Replacing the payload of one key leaves the key list unchanged. -/
theorem keys_map_replace {β : Type} (trav : List (Nat × β)) (k : Nat) (v : β) :
    ((trav.map fun e => if e.1 == k then (k, v) else e).map Prod.fst)
      = trav.map Prod.fst := by
  rw [List.map_map]
  apply List.map_congr_left
  intro e _
  by_cases h : e.1 = k <;> simp [h]

/-- Invariant of the `signal.serialize` loop: the emitted stream is exactly the
start node followed by the `traversedNodes` keys in insertion order, and those
keys are distinct and never include the start node.  Hence whatever the loop
returns has no duplicates. -/
theorem serializeLoop_nodup (g : List GNode) (startNode : Nat) :
    ∀ (fuel : Nat) (trav : List (Nat × List (Nat × Frac))) (stream : List Nat)
      (lastNode nextNode : Nat) (out : List Nat),
      stream = startNode :: trav.map Prod.fst →
      (trav.map Prod.fst).Nodup →
      startNode ∉ trav.map Prod.fst →
      serializeLoop g startNode fuel trav stream lastNode nextNode = some out →
      out.Nodup := by
  intro fuel
  induction fuel with
  | zero =>
    intro trav stream lastNode nextNode out h1 h2 h3 hrun
    simp [serializeLoop] at hrun
  | succ f ih =>
    intro trav stream lastNode nextNode out h1 h2 h3 hrun
    rw [serializeLoop] at hrun
    by_cases hns : nextNode = startNode
    · rw [if_pos hns] at hrun
      injection hrun with hrun
      rw [← hrun, h1]
      exact List.nodup_cons.mpr ⟨h3, h2⟩
    · rw [if_neg hns] at hrun
      by_cases hfv : (trav.find? fun e => e.1 == nextNode) = Option.none
      · -- first visit: nextNode is appended to both the stream and the keys
        simp only [hfv, Option.isNone_none, eq_self_iff_true, ite_true] at hrun
        have hnotmem : nextNode ∉ trav.map Prod.fst := find_none_not_mem_keys trav nextNode hfv
        split at hrun
        · exact absurd hrun (by simp)
        · rename_i entry hfind
          split at hrun
          · exact absurd hrun (by simp)
          · rename_i p rest hentry
            refine ih _ _ _ _ out ?_ ?_ ?_ hrun
            · rw [keys_map_replace, List.map_append, h1]
              rfl
            · rw [keys_map_replace, List.map_append]
              simp only [List.map_cons, List.map_nil]
              exact List.nodup_append.mpr ⟨h2, List.nodup_singleton _,
                by simpa [List.disjoint_singleton] using fun h => hnotmem h⟩
            · rw [keys_map_replace, List.map_append]
              simp only [List.map_cons, List.map_nil, List.mem_append, List.mem_singleton]
              rintro (h | h)
              · exact h3 h
              · exact hns h.symm
      · -- revisit: stream and keys unchanged
        have hfv' : (trav.find? fun e => e.1 == nextNode).isNone = false := by
          cases hcase : trav.find? fun e => e.1 == nextNode with
          | none => exact absurd hcase hfv
          | some v => rfl
        simp only [hfv', Bool.false_eq_true, ite_false] at hrun
        split at hrun
        · exact absurd hrun (by simp)
        · rename_i entry hfind
          split at hrun
          · exact absurd hrun (by simp)
          · rename_i p rest hentry
            refine ih _ _ _ _ out ?_ ?_ ?_ hrun
            · rw [keys_map_replace]
              exact h1
            · rw [keys_map_replace]
              exact h2
            · rw [keys_map_replace]
              exact h3

/--
C7 as amended.  Not every physical node of a degree-≤3 trace graph appears in
the serialized sequence (see the counterexample: the serializer walks only the
start node's component), but each node appears **at most once**: whatever
`signal.serialize` returns is duplicate-free — a node is appended only on its
first visit, later visits pop its remaining attachments without re-appending
it, and the walk stops on returning to the start node, which is never
re-appended either.
-/
theorem c7_amended_at_most_once (g : List GNode) (fuel : Nat) (out : List Nat)
    (h : serialize g fuel = some out) : out.Nodup := by
  unfold serialize at h
  split at h
  · exact absurd h (by simp)
  · rename_i startNode hstart
    split at h
    · exact absurd h (by simp)
    · rename_i first restAtt hatt
      exact serializeLoop_nodup g startNode fuel [] [startNode] startNode first.1 out
        rfl List.nodup_nil (by simp) h

/-- Witness for `c7_amended_at_most_once`: the plus-shaped signal's stream
`[1, 0, 3, 2]` is duplicate-free. -/
theorem c7_amended_at_most_once_witness :
    serialize plusGraph 20 = some [1, 0, 3, 2] ∧ ([1, 0, 3, 2] : List Nat).Nodup :=
  ⟨by decide, c7_amended_at_most_once plusGraph 20 [1, 0, 3, 2] (by decide)⟩

/-!
## C8: concatenation of signal streams and the terminal descriptor
-/

/--
Counterexample to C8.  The claim says consecutive signals' serialized
sequences are separated by an Isolated descriptor.  `board.__init__` does
`self.stream += thisSignal.serialize()` and nothing else: for a board with two
independent single-wire signals the assembled stream is just the four wire
endpoints back to back — it contains **no** Isolated (degree-0) descriptor
anywhere, in particular not between the two signals (positions 2 and 3 of the
stream belong to the second signal immediately after the first).
-/
theorem c8_counterexample :
    (boardStream [] 20 demoSignals).map (List.map GNode.position)
      = some [(0, 100), (0, 0), (50, 80), (50, 0)]
    ∧ (boardStream [] 20 demoSignals).map (List.countP fun nd => nd.attachments.length == 0)
      = some 0 := by
  decide

/--
C8 as amended.  Serialized sequences of consecutive signals are concatenated
**directly, with no separator** (second and third conjuncts: the two-signal
demo board's stream is the four endpoints back to back, with no Isolated
descriptor anywhere); the only Isolated descriptor is the single terminal one:
for every nodeList, the byte payload assembled by `krf.writeHexFile` is the
packed nodeList followed by exactly the 3 bytes `0xCC 0x00 0x00` — the packed
form of the one terminating descriptor (routingRole = Isolated,
connectionKind = None, orientation = None, X = Y = 0) appended after the last
real node before persisting.
-/
theorem c8_amended_no_separator :
    (∀ nodeList : List KNode, writeHexPayload nodeList = nodeListToByteList nodeList ++ [204, 0, 0])
    ∧ (boardStream [] 20 demoSignals).map (List.map GNode.position)
      = some [(0, 100), (0, 0), (50, 80), (50, 0)]
    ∧ (boardStream [] 20 demoSignals).map (List.countP fun nd => nd.attachments.length == 0)
      = some 0 := by
  refine ⟨fun nodeList => ?_, by decide, by decide⟩
  unfold writeHexPayload
  rw [nodeListToByteList_append]
  congr 1
  simp [generateTerminatingNode, nodeListToByteList, nodeBytes, nodeEncodedValue,
    routingEnc, connectionEnc, orientationEnc]

/-!
## C10: read-head invariants of the reverse traverser
-/

/-- The positional invariant maintained by every traverser step: the path
start is a valid index at or below the read position, the read position never
passes the furthest position reached, and while moving forward the read
position *is* the furthest position reached. -/
def TravInv (c : TravConfig) : Prop :=
  0 ≤ c.st.pathStartPosition
  ∧ c.st.pathStartPosition ≤ c.st.currentPosition
  ∧ c.st.currentPosition ≤ c.st.terminalPosition
  ∧ (c.st.direction = 1 → c.st.currentPosition = c.st.terminalPosition)

/-- `sim_visitJunction` only touches the junction record and its cursor; every
positional field is unchanged. -/
theorem sim_visitJunction_positions (s : TravState) :
    (sim_visitJunction s).2.pathStartPosition = s.pathStartPosition
    ∧ (sim_visitJunction s).2.currentPosition = s.currentPosition
    ∧ (sim_visitJunction s).2.terminalPosition = s.terminalPosition
    ∧ (sim_visitJunction s).2.direction = s.direction
    ∧ (sim_visitJunction s).2.passive = s.passive := by
  simp only [sim_visitJunction]
  split_ifs <;> simp

/-- One traverser step preserves `TravInv` and never decreases the terminal
position. -/
theorem travStep_inv (nl : List KNode) (c c' : TravConfig) (hinv : TravInv c)
    (hstep : travStep nl c = .running c') :
    TravInv c' ∧ c.st.terminalPosition ≤ c'.st.terminalPosition
      ∧ (c'.st.terminalPosition = c.st.terminalPosition
        ∨ (c'.st.terminalPosition = c.st.terminalPosition + 1
            ∧ c'.st.currentPosition = c'.st.terminalPosition)) := by
  obtain ⟨h0, h1, h2, h3⟩ := hinv
  unfold travStep at hstep
  split at hstep
  · exact absurd hstep (by simp)
  rename_i node hget
  dsimp only at hstep
  split at hstep
  case isTrue hdir =>
    have hce := h3 hdir
    split at hstep
    case isTrue hfirst =>
      split at hstep <;>
        · injection hstep with h
          subst h
          refine ⟨⟨?_, ?_, ?_, ?_⟩, ?_, ?_⟩ <;>
            simp [sim_startPath, sim_goForward, TravConfig.st] <;> omega
    case isFalse hfirst =>
      split at hstep <;>
        · injection hstep with h
          subst h
          refine ⟨⟨?_, ?_, ?_, ?_⟩, ?_, ?_⟩ <;>
            simp [sim_goForward, sim_goReverse, sim_newJunction, TravConfig.st] <;> omega
  case isFalse hdir =>
    split at hstep
    case isTrue hfirst =>
      split at hstep
      · injection hstep with h
        subst h
        refine ⟨⟨?_, ?_, ?_, ?_⟩, ?_, ?_⟩ <;>
          simp [sim_startPath, sim_skipTerminal, TravConfig.st] <;> omega
      · exact absurd hstep (by simp)
    case isFalse hfirst =>
      split at hstep
      · -- endpoint
        injection hstep with h
        subst h
        refine ⟨⟨?_, ?_, ?_, ?_⟩, ?_, ?_⟩ <;>
          simp [sim_goReverse, sim_setPassive, TravConfig.st] <;> omega
      · -- midpoint
        split at hstep <;>
          · injection hstep with h
            subst h
            refine ⟨⟨?_, ?_, ?_, ?_⟩, ?_, ?_⟩ <;>
              simp [sim_goReverse, TravConfig.st] <;> omega
      · -- tee
        obtain ⟨hp0, hp1, hp2, hp3, hp4⟩ := sim_visitJunction_positions c.st
        split at hstep
        · -- second visit to the junction
          injection hstep with h
          subst h
          refine ⟨⟨?_, ?_, ?_, ?_⟩, ?_, ?_⟩ <;>
            simp [sim_skipTerminal, sim_setActive, TravConfig.st, hp0, hp1, hp2, hp3] <;> omega
        · split at hstep
          · -- third visit
            injection hstep with h
            subst h
            refine ⟨⟨?_, ?_, ?_, ?_⟩, ?_, ?_⟩ <;>
              simp [sim_goReverse, sim_setActive, TravConfig.st, hp0, hp1, hp2, hp3] <;> omega
          · split at hstep
            · -- inactive junction
              injection hstep with h
              subst h
              refine ⟨⟨?_, ?_, ?_, ?_⟩, ?_, ?_⟩ <;>
                simp [sim_goReverse, sim_setPassive, TravConfig.st, hp0, hp1, hp2, hp3] <;> omega
            · -- undefined junction state: state unchanged
              injection hstep with h
              subst h
              refine ⟨⟨?_, ?_, ?_, ?_⟩, ?_, ?_⟩ <;>
                simp [TravConfig.st, hp0, hp1, hp2, hp3] <;> omega
      · -- isolated (fall-through, state unchanged)
        injection hstep with h
        subst h
        exact ⟨⟨h0, h1, h2, h3⟩, le_refl _, Or.inl rfl⟩

/-- Every reachable running configuration satisfies `TravInv`. -/
theorem travRun_inv (nl : List KNode) :
    ∀ (n : Nat) (c : TravConfig), traverseNodeList nl n = .running c → TravInv c := by
  intro n
  induction n with
  | zero =>
    intro c h
    injection h with h
    subst h
    exact ⟨le_refl _, le_refl _, le_refl _, fun _ => rfl⟩
  | succ m ih =>
    intro c h
    rw [traverseNodeList] at h
    split at h
    · rename_i c0 h0
      exact (travStep_inv nl c0 c (ih c0 h0) h).1
    · rename_i h0
      exact absurd h (h0 c)

/--
C10.  Throughout any run of the reverse traverser the read head never moves
past the furthest index reached: in every reachable configuration the current
position is at most the terminal position, and while moving forward
(direction 1) the current position equals the terminal position; moreover the
terminal position never decreases from one step to the next.
-/
theorem c10_read_head_invariant (nl : List KNode) (n : Nat) (c : TravConfig)
    (h : traverseNodeList nl n = .running c) :
    (c.st.currentPosition ≤ c.st.terminalPosition
      ∧ (c.st.direction = 1 → c.st.currentPosition = c.st.terminalPosition))
    ∧ ∀ c', traverseNodeList nl (n + 1) = .running c' →
        c.st.terminalPosition ≤ c'.st.terminalPosition := by
  have hinv := travRun_inv nl n c h
  refine ⟨⟨hinv.2.2.1, hinv.2.2.2⟩, fun c' h' => ?_⟩
  rw [traverseNodeList, h] at h'
  exact (travStep_inv nl c c' hinv h').2.1

/-- Witness for `c10_read_head_invariant` at the initial configuration of a
run on the single-wire sequence. -/
theorem c10_read_head_invariant_witness :
    traverseNodeList wireKRF 0 = .running travInit
    ∧ ((travInit.st.currentPosition ≤ travInit.st.terminalPosition
        ∧ (travInit.st.direction = 1 → travInit.st.currentPosition = travInit.st.terminalPosition))
      ∧ ∀ c', traverseNodeList wireKRF (0 + 1) = .running c' →
          travInit.st.terminalPosition ≤ c'.st.terminalPosition) :=
  ⟨rfl, c10_read_head_invariant wireKRF 0 travInit rfl⟩

/-!
## C4: decoding a truncated sequence

Strategy: a run of the traverser only ever inspects the node at the current
read position and the list length (in the path-close comparison).  On a
sequence on which decoding completes, every position is eventually read; on
the truncation `nl.take L` the run coincides with the full run step for step
until the first moment the full run reads a position `≥ L`, where the
truncated run instead runs off the end of the array — a fatal `IndexError` —
provided the cut point `L` is not one of the run's path-start boundaries
(there the length comparison `terminal + 1 < len` could differ).
-/

/-- The path-start boundaries of a run: every `pathStartPosition` reached by
some configuration within `fuel` steps.  A truncation cuts mid-path when its
length is not one of these. -/
def pathBoundaries (nl : List KNode) (fuel : Nat) : List Int :=
  (List.range (fuel + 1)).filterMap fun n =>
    match traverseNodeList nl n with
    | .running c => some c.st.pathStartPosition
    | _ => Option.none

/-- `done` outcomes are frozen: once returned, later fuels return the same. -/
theorem travRun_done_frozen (nl : List KNode) (n : Nat) (p : List (List KNode))
    (h : traverseNodeList nl n = .done p) :
    ∀ m, n ≤ m → traverseNodeList nl m = .done p := by
  intro m hm
  induction m with
  | zero => exact Nat.le_zero.mp hm ▸ h
  | succ k ih =>
    rcases Nat.lt_or_ge n (k + 1) with hlt | hge
    · have hk := ih (Nat.lt_succ_iff.mp hlt)
      rw [traverseNodeList, hk]
    · exact (Nat.le_antisymm hm hge) ▸ h

/-- `fail` outcomes are frozen as well. -/
theorem travRun_fail_frozen (nl : List KNode) (n : Nat)
    (h : traverseNodeList nl n = .fail) :
    ∀ m, n ≤ m → traverseNodeList nl m = .fail := by
  intro m hm
  induction m with
  | zero => exact Nat.le_zero.mp hm ▸ h
  | succ k ih =>
    rcases Nat.lt_or_ge n (k + 1) with hlt | hge
    · have hk := ih (Nat.lt_succ_iff.mp hlt)
      rw [traverseNodeList, hk]
    · exact (Nat.le_antisymm hm hge) ▸ h

/-- If the run is still going at step `n`, it was still going at every earlier
step. -/
theorem travRun_running_of_le (nl : List KNode) (n m : Nat) (c : TravConfig)
    (h : traverseNodeList nl n = .running c) (hm : m ≤ n) :
    ∃ c', traverseNodeList nl m = .running c' := by
  cases hcase : traverseNodeList nl m with
  | running c' => exact ⟨c', rfl⟩
  | done p => rw [travRun_done_frozen nl m p hcase n hm] at h; cases h
  | fail => rw [travRun_fail_frozen nl m hcase n hm] at h; cases h

/-- A `running` step comes from a `running` predecessor via `travStep`. -/
theorem travRun_running_src (nl : List KNode) (n : Nat) (c' : TravConfig)
    (h : traverseNodeList nl (n + 1) = .running c') :
    ∃ c, traverseNodeList nl n = .running c ∧ travStep nl c = .running c' := by
  rw [traverseNodeList] at h
  cases hcase : traverseNodeList nl n with
  | running c => rw [hcase] at h; exact ⟨c, rfl, h⟩
  | done p => rw [hcase] at h; cases h
  | fail => rw [hcase] at h; cases h

/-- A `done` outcome comes from a `running` configuration on which `travStep`
returned. -/
theorem travRun_done_src (nl : List KNode) (fuel : Nat) (p : List (List KNode))
    (h : traverseNodeList nl fuel = .done p) :
    ∃ n c, n < fuel ∧ traverseNodeList nl n = .running c ∧ travStep nl c = .done p := by
  induction fuel with
  | zero => cases h
  | succ k ih =>
    rw [traverseNodeList] at h
    cases hcase : traverseNodeList nl k with
    | running c =>
      rw [hcase] at h
      exact ⟨k, c, Nat.lt_succ_self k, hcase, h⟩
    | done q =>
      rw [hcase] at h
      obtain ⟨n, c, hn, hc, hs⟩ := ih (h ▸ hcase)
      exact ⟨n, c, Nat.lt_succ_of_lt hn, hc, hs⟩
    | fail => rw [hcase] at h; cases h

/-- The terminal position of any reachable configuration was the current read
position of some (possibly the same) earlier configuration. -/
theorem terminal_attained (nl : List KNode) :
    ∀ (n : Nat) (c : TravConfig), traverseNodeList nl n = .running c →
      ∃ m c', m ≤ n ∧ traverseNodeList nl m = .running c'
        ∧ c'.st.currentPosition = c.st.terminalPosition := by
  intro n
  induction n with
  | zero =>
    intro c h
    injection h with h
    subst h
    exact ⟨0, travInit, le_refl _, rfl, rfl⟩
  | succ k ih =>
    intro c h
    obtain ⟨c0, hc0, hs⟩ := travRun_running_src nl k c h
    have hinv := travRun_inv nl k c0 hc0
    rcases (travStep_inv nl c0 c hinv hs).2.2 with heq | ⟨hterm, hcur⟩
    · obtain ⟨m, c', hm, hc', hcur⟩ := ih c0 hc0
      exact ⟨m, c', Nat.le_succ_of_le hm, hc', heq ▸ hcur⟩
    · exact ⟨k + 1, c, le_refl _, h, hcur⟩

/-- Whether, after `n` steps, the run on `nl` is at a configuration about to
read position `L` or beyond. -/
def readsAtOrPast (nl : List KNode) (L : Int) (n : Nat) : Bool :=
  match traverseNodeList nl n with
  | .running c => L ≤ c.st.currentPosition
  | _ => false

/-- A step can return only from the path-close branch, whose else-condition
says the skip went to or past the end of the list. -/
theorem travStep_done_bound (nl : List KNode) (c : TravConfig) (p : List (List KNode))
    (hs : travStep nl c = .done p) :
    (nl.length : Int) ≤ c.st.terminalPosition + 1 := by
  unfold travStep at hs
  split at hs
  · cases hs
  rename_i node hget
  dsimp only at hs
  split at hs
  case isTrue hdir =>
    split at hs
    case isTrue hfirst =>
      split at hs <;> cases hs
    case isFalse hfirst =>
      split at hs <;> cases hs
  case isFalse hdir =>
    split at hs
    case isTrue hfirst =>
      split at hs
      · cases hs
      · rename_i hcond
        simp only [sim_skipTerminal] at hcond
        omega
    case isFalse hfirst =>
      split at hs
      · cases hs
      · split at hs <;> cases hs
      · split at hs
        · cases hs
        · split at hs
          · cases hs
          · split at hs
            · cases hs
            · cases hs
      · cases hs

/-- On a completing run, some configuration is about to read at or past any
in-range position. -/
theorem readsAtOrPast_exists (nl : List KNode) (fuel : Nat) (p : List (List KNode)) (L : Nat)
    (hdone : traverseNodeList nl fuel = .done p) (hlen : L < nl.length) :
    ∃ n, readsAtOrPast nl (L : Int) n = true := by
  obtain ⟨n, c, hn, hc, hs⟩ := travRun_done_src nl fuel p hdone
  have hterm := travStep_done_bound nl c p hs
  obtain ⟨m, c', hm, hc', hcur⟩ := terminal_attained nl n c hc
  refine ⟨m, ?_⟩
  unfold readsAtOrPast
  rw [hc']
  simp only [decide_eq_true_eq]
  omega

/-- Reading a position strictly below the cut sees the same node in the
truncated list. -/
theorem pyGet_take (nl : List KNode) (L : Nat) (i : Int)
    (h0 : 0 ≤ i) (hi : i < (L : Int)) :
    pyGet (nl.take L) i = pyGet nl i := by
  unfold pyGet
  rw [if_pos h0, if_pos h0]
  apply List.getElem?_take_of_lt
  omega

/-- `travStep` depends on the node list only through the node at the current
position and (in the path-close branch) the list length. -/
theorem travStep_congr (nl₁ nl₂ : List KNode) (c : TravConfig)
    (hget : pyGet nl₁ c.st.currentPosition = pyGet nl₂ c.st.currentPosition)
    (hlen : c.st.direction ≠ 1 → c.st.currentPosition = c.st.pathStartPosition →
      (c.st.terminalPosition + 1 < (nl₁.length : Int)
        ↔ c.st.terminalPosition + 1 < (nl₂.length : Int))) :
    travStep nl₁ c = travStep nl₂ c := by
  unfold travStep
  rw [hget]
  cases pyGet nl₂ c.st.currentPosition with
  | none => rfl
  | some node =>
    dsimp only
    split
    · rfl
    · rename_i hdir
      split
      · rename_i hstart
        have hiff := hlen hdir hstart
        have hskip : (sim_skipTerminal c.st).currentPosition = c.st.terminalPosition + 1 := rfl
        exact if_congr (by rw [hskip]; exact hiff) rfl rfl
      · rfl

/-- Evaluation of `travStep` in the path-close branch that starts a new path:
the new path start is one past the old terminal position. -/
theorem travStep_close (nl : List KNode) (c : TravConfig) (node : KNode)
    (hget : pyGet nl c.st.currentPosition = some node)
    (hdir : c.st.direction ≠ 1) (hstart : c.st.currentPosition = c.st.pathStartPosition)
    (hlt : c.st.terminalPosition + 1 < (nl.length : Int)) :
    travStep nl c = .running ⟨sim_startPath (sim_skipTerminal c.st), [],
      c.travelList ++ [c.pathList ++ [node]]⟩ := by
  unfold travStep
  rw [hget]
  dsimp only
  rw [if_neg hdir, if_pos hstart, if_pos (show (sim_skipTerminal c.st).currentPosition
    < (nl.length : Int) from hlt)]

/-- Core simulation argument: as long as the full run has not yet been about
to read a position `≥ L` (and `L` is not a path boundary of the full run), the
run on the truncation `nl.take L` passes through exactly the same
configurations, and every terminal position stays below `L`. -/
theorem truncated_run_coincides (nl : List KNode) (fuel : Nat) (p : List (List KNode)) (L : Nat)
    (hdone : traverseNodeList nl fuel = .done p)
    (hL0 : 0 < L) (hLlen : L < nl.length)
    (hbound : ∀ n c, traverseNodeList nl n = .running c → c.st.pathStartPosition ≠ (L : Int))
    (hex : ∃ n, readsAtOrPast nl (L : Int) n = true) :
    ∀ n, n ≤ Nat.find hex →
      traverseNodeList (nl.take L) n = traverseNodeList nl n
      ∧ (n < Nat.find hex → ∀ c, traverseNodeList nl n = .running c →
          c.st.terminalPosition < (L : Int)) := by
  intro n
  induction n with
  | zero =>
    intro _
    refine ⟨rfl, fun _ c hc => ?_⟩
    injection hc with hc
    rw [← hc]
    simp only [travInit, sim_initState]
    omega
  | succ k ih =>
    intro hk1
    have hkI : k < Nat.find hex := Nat.lt_of_lt_of_le (Nat.lt_succ_self k) hk1
    obtain ⟨heq, hterm⟩ := ih (Nat.le_of_lt hkI)
    -- the full run is still going at the find index, hence also at k
    have hspec := Nat.find_spec hex
    cases hcI : traverseNodeList nl (Nat.find hex) with
    | done q => unfold readsAtOrPast at hspec; rw [hcI] at hspec; cases hspec
    | fail => unfold readsAtOrPast at hspec; rw [hcI] at hspec; cases hspec
    | running cI =>
    obtain ⟨ck, hck⟩ := travRun_running_of_le nl (Nat.find hex) k cI hcI (Nat.le_of_lt hkI)
    have hmin := Nat.find_min hex hkI
    have hcur : ck.st.currentPosition < (L : Int) := by
      unfold readsAtOrPast at hmin
      rw [hck] at hmin
      simpa using hmin
    have hterm_k : ck.st.terminalPosition < (L : Int) := hterm hkI ck hck
    have hinv := travRun_inv nl k ck hck
    obtain ⟨hi0, hi1, hi2, hi3⟩ := hinv
    have hfull : traverseNodeList nl (k + 1) = travStep nl ck := by
      rw [traverseNodeList, hck]
    have htrunc : traverseNodeList (nl.take L) (k + 1) = travStep (nl.take L) ck := by
      rw [traverseNodeList, heq, hck]
    have hget : pyGet (nl.take L) ck.st.currentPosition = pyGet nl ck.st.currentPosition :=
      pyGet_take nl L _ (by omega) hcur
    have hlen : ck.st.direction ≠ 1 → ck.st.currentPosition = ck.st.pathStartPosition →
        (ck.st.terminalPosition + 1 < ((nl.take L).length : Int)
          ↔ ck.st.terminalPosition + 1 < (nl.length : Int)) := by
      intro hdir hstart
      have hlenTake : ((nl.take L).length : Int) = (L : Int) := by
        simp [List.length_take]
        omega
      have hle : ck.st.terminalPosition + 1 ≤ (L : Int) := by omega
      rcases lt_or_eq_of_le hle with hlt | heq2
      · rw [hlenTake]
        constructor <;> intro <;> omega
      · -- the full run would close a path exactly at the cut: excluded by hbound
        exfalso
        cases hgetfull : pyGet nl ck.st.currentPosition with
        | none =>
          have hf : travStep nl ck = .fail := by
            unfold travStep
            rw [hgetfull]
          have hfail : traverseNodeList nl (k + 1) = .fail := by rw [hfull, hf]
          rcases Nat.le_total (k + 1) fuel with hclee | hclee
          · have := travRun_fail_frozen nl (k + 1) hfail fuel hclee
            rw [this] at hdone
            cases hdone
          · have := travRun_done_frozen nl fuel p hdone (k + 1) hclee
            rw [this] at hfail
            cases hfail
        | some node =>
          have hclose := travStep_close nl ck node hgetfull hdir hstart (by omega)
          have hrun : traverseNodeList nl (k + 1)
              = .running ⟨sim_startPath (sim_skipTerminal ck.st), [],
                  ck.travelList ++ [ck.pathList ++ [node]]⟩ := by rw [hfull, hclose]
          have := hbound (k + 1) _ hrun
          apply this
          simp only [sim_startPath, sim_skipTerminal]
          omega
    have hstepeq : travStep (nl.take L) ck = travStep nl ck := travStep_congr _ _ ck hget hlen
    refine ⟨htrunc.trans (hstepeq.trans hfull.symm), fun hk2 c' hc' => ?_⟩
    have hs : travStep nl ck = .running c' := by rw [← hfull, hc']
    rcases (travStep_inv nl ck c' ⟨hi0, hi1, hi2, hi3⟩ hs).2.2 with he | ⟨ht, hcu⟩
    · omega
    · by_contra hge
      have hreads : readsAtOrPast nl (L : Int) (k + 1) = true := by
        unfold readsAtOrPast
        rw [hc']
        simp only [decide_eq_true_eq]
        omega
      exact absurd hreads (Nat.find_min hex hk2)

/--
C4.  For every sequence on which the traverser completes (a valid serialized
sequence in the sense of the format: decoding returns a travelList) and every
truncation of it that cuts mid-path — at a length `L` that is not one of the
run's path-start boundaries — decoding the truncated sequence fails with a
fatal format error: the read head runs off the end of the truncated array
(the modelled `IndexError`), and no amount of fuel ever makes the truncated
decode return a result.  Decode never returns a silent partial result on such
a truncation.
-/
theorem c4_truncation_fails (nl : List KNode) (fuel : Nat) (paths : List (List KNode)) (L : Nat)
    (hdone : traverseNodeList nl fuel = .done paths)
    (hL0 : 0 < L) (hLlen : L < nl.length)
    (hmid : (L : Int) ∉ pathBoundaries nl fuel) :
    (∀ f q, traverseNodeList (nl.take L) f ≠ .done q)
    ∧ ∃ f, traverseNodeList (nl.take L) f = .fail := by
  have hbound : ∀ n c, traverseNodeList nl n = .running c →
      c.st.pathStartPosition ≠ (L : Int) := by
    intro n c hc hEq
    apply hmid
    have hn : n ≤ fuel := by
      by_contra hgt
      push_neg at hgt
      have := travRun_done_frozen nl fuel paths hdone n (Nat.le_of_lt hgt)
      rw [this] at hc
      cases hc
    unfold pathBoundaries
    exact List.mem_filterMap.mpr
      ⟨n, List.mem_range.mpr (Nat.lt_succ_of_le hn), by simp only [hc, hEq]⟩
  have hex := readsAtOrPast_exists nl fuel paths L hdone hLlen
  have hco := truncated_run_coincides nl fuel paths L hdone hL0 hLlen hbound hex
  have hspec := Nat.find_spec hex
  cases hcI : traverseNodeList nl (Nat.find hex) with
  | done q => unfold readsAtOrPast at hspec; rw [hcI] at hspec; cases hspec
  | fail => unfold readsAtOrPast at hspec; rw [hcI] at hspec; cases hspec
  | running cI =>
  have hcur : (L : Int) ≤ cI.st.currentPosition := by
    unfold readsAtOrPast at hspec
    rw [hcI] at hspec
    simpa using hspec
  have hinv := travRun_inv nl (Nat.find hex) cI hcI
  have heqI := (hco (Nat.find hex) (le_refl _)).1
  have hfailstep : travStep (nl.take L) cI = .fail := by
    unfold travStep
    have hnone : pyGet (nl.take L) cI.st.currentPosition = Option.none := by
      unfold pyGet
      rw [if_pos (by omega : (0 : Int) ≤ cI.st.currentPosition)]
      apply List.getElem?_eq_none
      have : (nl.take L).length = L := by
        simp [List.length_take]
        omega
      omega
    rw [hnone]
  have hfail : traverseNodeList (nl.take L) (Nat.find hex + 1) = .fail := by
    rw [traverseNodeList, heqI, hcI]
    exact hfailstep
  constructor
  · intro f q hq
    rcases Nat.le_total f (Nat.find hex) with hf | hf
    · obtain ⟨cf, hcf⟩ := travRun_running_of_le nl (Nat.find hex) f cI hcI hf
      rw [(hco f hf).1, hcf] at hq
      cases hq
    · rcases Nat.eq_or_lt_of_le hf with hf' | hf'
      · rw [(hco f (Nat.le_of_eq hf'.symm)).1, ← hf', hcI] at hq
        cases hq
      · have := travRun_fail_frozen (nl.take L) (Nat.find hex + 1) hfail f hf'
        rw [this] at hq
        cases hq
  · exact ⟨Nat.find hex + 1, hfail⟩

/-- Witness for `c4_truncation_fails`: the plus-shape sequence decodes
completely; cutting it to its first two descriptors (mid-path: 2 is not a
path boundary of the run) makes decoding fail. -/
theorem c4_truncation_fails_witness :
    traverseNodeList plusKRF 30 = .done [plusPath]
    ∧ 0 < 2 ∧ 2 < plusKRF.length
    ∧ ((2 : Int) ∉ pathBoundaries plusKRF 30)
    ∧ ∃ f, traverseNodeList (plusKRF.take 2) f = .fail :=
  ⟨by decide, by decide, by decide, by decide,
    (c4_truncation_fails plusKRF 30 [plusPath] 2 (by decide) (by decide) (by decide)
      (by decide)).2⟩

end Kaolin
